import Mathlib

/-!
Verification development for the shigaplaza-monitor repository.

The repository contains three revisions of the same monitoring script:
* `monitor_shigaplaza.py` (modelled in namespace `MonitorA`),
* `キーワード（タイトル/本文に含まれればヒット）` (v1.6, namespace `MonitorBC`,
  together with the parts shared verbatim with the next file),
* `通知判定用キーワード（タイトル/本文のどちらかに含まれれば通知）` (v1.3,
  whose `make_item_id`, `known`, `save`, `host_seeded`, `same_host`,
  `norm_url`, the `parse_detail` title logic and the main crawl loop are
  textually identical to the v1.6 file; they are modelled once in
  namespace `MonitorBC`).

Network fetching, HTML parsing into a soup object, SMTP transport and
wall-clock time are external collaborators; they are modelled by passing
already-fetched/parsed values (resolved anchors, parsed items, send
outcomes) as explicit inputs, and `hashlib.sha1`/`hashlib.sha256` are
modelled as an arbitrary function parameter `sha : String → String`
since no claim depends on the hash's internals.  The SQLite `items`
table is modelled as a list of rows in insertion order; `INSERT OR
IGNORE` on the primary key `id` becomes append-if-id-absent, and the
`created_at` column (wall-clock time) is omitted.
-/

/-- Python code-point comparison of strings (`a < b`), on the underlying
character lists. -/
def strLt : List Char → List Char → Bool
  | [], [] => false
  | [], _ :: _ => true
  | _ :: _, [] => false
  | a :: as, b :: bs =>
    if a.toNat < b.toNat then true
    else if b.toNat < a.toNat then false
    else strLt as bs

/-- Python substring containment (`needle in hay`) on character lists. -/
def isSub (needle : List Char) : List Char → Bool
  | [] => needle.isEmpty
  | c :: h => needle.isPrefixOf (c :: h) || isSub needle h

/-- Python `s.startswith(p)` on character lists. -/
def strStarts (p s : List Char) : Bool := p.isPrefixOf s

/-- ASCII lower-casing of one character, as Python's `str.lower` and
SQLite's `LIKE` fold ASCII letters (non-ASCII characters never occur in
the URLs involved). -/
def lowAscii (c : Char) : Char := if 'A' ≤ c && c ≤ 'Z' then Char.ofNat (c.toNat + 32) else c

/-- ASCII lower-casing of a string. -/
def lowerStr (s : String) : String := String.mk (s.data.map lowAscii)

/-- Numeric value of a list of decimal digit characters. -/
def digitsVal (l : List Char) : Int :=
  l.foldl (fun a c => a * 10 + ((c.toNat : Int) - 48)) 0

/-- Leading/trailing-whitespace strip on a character list (Python
`str.strip()`, restricted to the ASCII whitespace that occurs here). -/
def trimWs (l : List Char) : List Char :=
  ((l.dropWhile Char.isWhitespace).reverse.dropWhile Char.isWhitespace).reverse

/-- Python `str.strip()` on strings. -/
def trimS (s : String) : String := String.mk (trimWs s.data)

/-- Python `int(s)`: optional surrounding whitespace, one optional sign,
then one or more decimal digits; anything else raises (`none`).
(Digit-group underscores, never produced by the scripts' date
extraction, are not modelled.) -/
def pyInt? (s : String) : Option Int :=
  let t := trimWs s.data
  let core : Int × List Char :=
    if t.head? = some '+' then (1, t.tail)
    else if t.head? = some '-' then (-1, t.tail)
    else (1, t)
  if core.2 ≠ [] && core.2.all Char.isDigit then some (core.1 * digitsVal core.2) else none

/-- Python `s.split(".")` on character lists. -/
def splitOnDot : List Char → List (List Char)
  | [] => [[]]
  | c :: r =>
    match splitOnDot r with
    | [] => [[]]
    | p :: ps => if c = '.' then [] :: p :: ps else (c :: p) :: ps

/-- One insertion step of the stable descending sort: `x` is placed
before the first element it is not strictly below, which is exactly how
Python's stable `list.sort(key=…, reverse=True)` orders elements. -/
def insRev (lt : α → α → Bool) (x : α) : List α → List α
  | [] => [x]
  | y :: ys => if lt x y then y :: insRev lt x ys else x :: y :: ys

/-- Stable descending sort modelling Python `list.sort(key=…, reverse=True)`
for a total preorder given by the strict comparison `lt`: keys descend,
and elements with equal keys keep their original relative order. -/
def sortRev (lt : α → α → Bool) (l : List α) : List α := l.foldr (insRev lt) []

/-- Ascending lexicographic sort of strings, modelling Python
`sorted(set_of_strings)`. -/
def sortAsc (l : List String) : List String := sortRev (fun a b => strLt b.data a.data) l

/-- Order-preserving de-duplication by exact string equality. -/
def dedupKeep (seen : List String) : List String → List String
  | [] => []
  | x :: r => if seen.contains x then dedupKeep seen r else x :: dedupKeep (x :: seen) r

/-- Rows of the SQLite `items` table (`created_at` omitted: it is
wall-clock time and no query reads it).  `monitor_shigaplaza.py` calls
the sixth column `source`; the other two revisions call it `src`. -/
structure Row where
  id : String
  url : String
  title : String
  published : String
  updated : String
  src : String
deriving DecidableEq

/-- The persisted store: the `items` table as a list of rows in insertion
order. -/
abbrev Store := List Row

namespace MonitorBC

/-- Per-site rule dictionary; the only key the modelled functions read is
`rule.get("brand_new_only", False)` (path patterns are passed to
`pick_articles_from_list` as an explicit predicate). -/
structure SiteRule where
  brand_new_only : Bool
deriving DecidableEq

/-- `make_item_id(url, updated, published, rule)`: `sha(url)` under
`brand_new_only`, else `sha(basis or url)` with
`basis = url + "|" + (updated or published)`.  Dates are strings here
(`find_date` returns `""` when absent), so `updated or published` is
`published` exactly when `updated` is empty. -/
def make_item_id (sha : String → String) (url updated published : String)
    (rule : SiteRule) : String :=
  if rule.brand_new_only then sha url
  else
    let basis := url ++ "|" ++ (if updated = "" then published else updated)
    sha (if basis = "" then url else basis)

/-- `known(item_id)`: `SELECT 1 FROM items WHERE id=?` is non-empty. -/
def known (item_id : String) (db : Store) : Bool := db.any (fun r => r.id == item_id)

/-- `save(item, src)`: `INSERT OR IGNORE INTO items VALUES (…)` — a row
whose primary key `id` already exists is ignored, otherwise the row is
appended. -/
def save (item : Row) (db : Store) : Store :=
  if known item.id db then db else db ++ [item]

/-- SQLite `col LIKE pat || '%'`: an ASCII-case-insensitive prefix test
(the patterns built by `host_seeded` contain no `%` or `_` wildcards
inside the host). -/
def likeStarts (pat s : String) : Bool := strStarts (lowerStr pat).data (lowerStr s).data

/-- `host_seeded(host)`: some row's `url` or `src` matches
`LIKE "https://" + host + "/%"`. -/
def host_seeded (host : String) (db : Store) : Bool :=
  let pre := "https://" ++ host ++ "/"
  db.any (fun r => likeStarts pre r.url || likeStarts pre r.src)

/-- `urlparse(u).netloc` for the absolute http(s) URLs handled here: the
text between the first `"://"` and the following `/`, `?` or `#`. -/
def netlocOf : List Char → List Char
  | [] => []
  | ':' :: '/' :: '/' :: r => r.takeWhile (fun c => c ≠ '/' && c ≠ '?' && c ≠ '#')
  | _ :: r => netlocOf r

/-- `host_of(url)`. -/
def host_of (url : String) : String := String.mk (netlocOf url.data)

/-- `same_host(url, host)`. -/
def same_host (url host : String) : Bool := host_of url == host

/-- `urlparse(u).path` for the absolute http(s) URLs handled here. -/
def pathOf : List Char → List Char
  | [] => []
  | ':' :: '/' :: '/' :: r =>
    (r.dropWhile (fun c => c ≠ '/' && c ≠ '?' && c ≠ '#')).takeWhile (fun c => c ≠ '?' && c ≠ '#')
  | _ :: r => pathOf r

/-- `norm_url`: the `href.strip()` emptiness test and `urljoin` happen
before this point (the resolver is an external collaborator), so the
input is the resolved URL, `""` when the href was empty; `mailto:`,
`tel:` and fragment-carrying URLs are rejected. -/
def norm_url (u : String) : String :=
  if u = "" then ""
  else if strStarts "mailto:".data u.data then ""
  else if strStarts "tel:".data u.data then ""
  else if isSub "#".data u.data then ""
  else u

/-- `pick_articles_from_list(list_url, host, patterns)` (the default,
non-`index_extract` branch, identical in both revisions): anchors are
the `a[href]` values already resolved against `list_url`, in document
order; kept links must normalise, be same-host, and have a path whose
lower-casing satisfies the rule's pattern predicate; the resulting set
is sorted ascending and capped at 200. -/
def pick_articles_from_list (host : String) (patterns : String → Bool)
    (anchors : List String) : List String :=
  let links := anchors.filterMap (fun raw =>
    let u := norm_url raw
    if u = "" then none
    else if !(same_host u host) then none
    else if patterns (lowerStr (String.mk (pathOf u.data))) then some u else none)
  (sortAsc (dedupKeep [] links)).take 200

/-- One parsed detail page as `parse_detail` returns it: the `hit` flag
is the derived keyword-match outcome
(`any(k in title or k in text for k in KEYWORDS)`). -/
structure ItemB where
  url : String
  title : String
  published : String
  updated : String
  hit : Bool
deriving DecidableEq

/-- The soup features `parse_detail` reads for the title: the stripped
text of the first `h1` (`none` when the page has no `h1`), and the
stripped text of the `title` tag (`none` when the page has no `title`
tag). -/
structure SoupBC where
  h1 : Option String
  titleTxt : Option String
deriving DecidableEq

/-- The title computed by `parse_detail`:
`t.get_text(strip=True) if t else (s.title.get_text(strip=True) if s.title else url)` —
presence of the elements, not non-emptiness of their text, drives the
chain. -/
def parse_detail_title (s : SoupBC) (url : String) : String :=
  match s.h1 with
  | some t => t
  | none =>
    match s.titleTxt with
    | some ts => ts
    | none => url

/-- `date_key(published, updated)` of the v1.6 revision:
`(updated or published or "")`, `/`→`.`, split on `.`, unpack exactly
three `int(…)` values; any failure yields `(0, 0, 0)`. -/
def date_key (published updated : String) : Int × Int × Int :=
  let s0 := if updated = "" then published else updated
  let s := s0.data.map (fun c => if c = '/' then '.' else c)
  match (splitOnDot s).take 3 with
  | [a, b, c] =>
    match pyInt? (String.mk a), pyInt? (String.mk b), pyInt? (String.mk c) with
    | some y, some m, some d => (y, m, d)
    | _, _, _ => (0, 0, 0)
  | _ => (0, 0, 0)

/-- Python `<` on the `(y, m, d)` int triples used as sort keys. -/
def tripleLt (a b : Int × Int × Int) : Bool :=
  decide (a.1 < b.1) ||
    (decide (a.1 = b.1) &&
      (decide (a.2.1 < b.2.1) || (decide (a.2.1 = b.2.1) && decide (a.2.2 < b.2.2))))

/-- Python `<` on the full sort key
`(date_key(published, updated), url)` of `pick_latest_matching`'s
`candidates.sort(key=…, reverse=True)`. -/
def sortKeyLt (a b : String × ItemB) : Bool :=
  let ka := date_key a.2.published a.2.updated
  let kb := date_key b.2.published b.2.updated
  tripleLt ka kb || (decide (ka = kb) && strLt a.2.url.data b.2.url.data)

/-- The selection step of `pick_latest_matching`: the candidate
collection loop (network) is external, so the already-collected
`(src, item)` pairs are the input; the list is sorted by
`(date_key, url)` descending and the head is returned. -/
def pick_latest_matching (candidates : List (String × ItemB)) : Option (String × ItemB) :=
  match sortRev sortKeyLt candidates with
  | [] => none
  | top :: _ => some top

/-- The row `save({"id": item_id, **d}, src)` inserts. -/
def itemRow (sha : String → String) (rule : SiteRule) (src : String) (d : ItemB) : Row :=
  { id := make_item_id sha d.url d.updated d.published rule,
    url := d.url, title := d.title, published := d.published,
    updated := d.updated, src := src }

/-- One step of the main crawl loop body (v1.6 lines 233-253, identical
in v1.3): skip non-hits, skip known identities, otherwise save (and,
outside seed mode, notify).  The state is the store plus the list of
items for which `send_mail` was invoked. -/
def crawlStep (sha : String → String) (rule : SiteRule) (is_seed : Bool)
    (st : Store × List ItemB) (sd : String × ItemB) : Store × List ItemB :=
  let d := sd.2
  if !d.hit then st
  else
    let item_id := make_item_id sha d.url d.updated d.published rule
    if known item_id st.1 then st
    else if is_seed then (save (itemRow sha rule sd.1 d) st.1, st.2)
    else (save (itemRow sha rule sd.1 d) st.1, st.2 ++ [d])

/-- The per-host part of `main`'s normal-operation loop: `is_seed` is
decided once from the store (`not host_seeded(host)` under the default
`FORCE_SEED=1`, passed as `force_seed`), then every discovered
`(src, parsed item)` pair is processed in crawl order.  Per-`src`
exception handling is not modelled because no modelled operation raises
here; a raising `send_mail` is modelled separately by
`steady_notify_once`. -/
def runHost (sha : String → String) (rule : SiteRule) (host : String) (force_seed : Bool)
    (found : List (String × ItemB)) (db : Store) : Store × List ItemB :=
  let is_seed := !host_seeded host db && force_seed
  found.foldl (crawlStep sha rule is_seed) (db, [])

/-- The steady-state notify branch for one matched unknown item (v1.6
lines 243-252, identical in v1.3): `save` executes before `send_mail`,
so even when the send raises (`send_ok = false`, the exception then
propagating to the per-`src` handler) the row is already inserted. -/
def steady_notify_once (sha : String → String) (rule : SiteRule) (src : String)
    (d : ItemB) (db : Store) (send_ok : Bool) : Store × Bool :=
  (save (itemRow sha rule src d) db, send_ok)

end MonitorBC

namespace MonitorA

/-- One parsed detail page of `monitor_shigaplaza.py`'s `parse_detail`:
`{"url": url, "title": title or "", "published": pub, "updated": None}`
with `pub` the optional date guess. -/
structure ItemA where
  url : String
  title : String
  published : Option String
deriving DecidableEq

/-- `known_by_url(url)`: `SELECT 1 FROM items WHERE url=?` is non-empty. -/
def known_by_url (url : String) (db : Store) : Bool := db.any (fun r => r.url == url)

/-- `site_has_any_seen(source_name)`: `SELECT 1 FROM items WHERE source=?`
is non-empty. -/
def site_has_any_seen (source_name : String) (db : Store) : Bool :=
  db.any (fun r => r.src == source_name)

/-- `save_item(item)`: `INSERT OR IGNORE INTO items VALUES (…)` keyed by
the primary key `id`. -/
def save_item (item : Row) (db : Store) : Store :=
  if db.any (fun r => r.id == item.id) then db else db ++ [item]

/-- `save_known(item_like, source_name)`: inserts the row with
`id = sha(url)`; `updated` is always `None` in this revision
(modelled as `""`, as is a `None` published date). -/
def save_known (sha1 : String → String) (d : ItemA) (source_name : String)
    (db : Store) : Store :=
  save_item { id := sha1 d.url, url := d.url, title := d.title,
              published := d.published.getD "", updated := "", src := source_name } db

/-- `title_hit(title, keywords)`: `any(k in t for k in keywords)`. -/
def title_hit (title : String) (keywords : List String) : Bool :=
  keywords.any (fun k => isSub k.data title.data)

/-- `date_key(x)` inside `crawl_rule`: keep only the decimal digits of
the published date and read them as one integer; an empty digit string
makes `int` raise, giving `-1`. -/
def date_key (x : ItemA) : Int :=
  let p := x.published.getD ""
  let pnum := p.data.filter Char.isDigit
  if pnum.isEmpty then -1 else digitsVal pnum

/-- The comparison on candidates induced by
`candidates.sort(key=date_key, reverse=True)`. -/
def date_lt (a b : ItemA) : Bool := decide (date_key a < date_key b)

/-- An absolute URL as `urljoin` returns it, in parsed form: `rest`
holds everything after the path (query and fragment, leading characters
included), so `urlString` is the exact resolved string. -/
structure Url where
  scheme : String
  netloc : String
  path : String
  rest : String
deriving DecidableEq

/-- The resolved URL string `u` whose `urlparse` fields are the
structure's fields. -/
def urlString (u : Url) : String := u.scheme ++ "://" ++ u.netloc ++ u.path ++ u.rest

/-- The acceptance test of `collect_same_domain_links` for one resolved
anchor: `pu.scheme.startswith("http")`,
`pu.netloc.endswith(base_netloc)` (a suffix test, not equality), and
none of the lower-cased navigation/search substrings. -/
def keepLink (base_netloc : String) (u : Url) : Bool :=
  strStarts "http".data u.scheme.data
  && List.isSuffixOf base_netloc.data u.netloc.data
  && !(["/?s=", "/search", "/tag/"].any (fun x => isSub x.data (lowerStr (urlString u)).data))

/-- `collect_same_domain_links(base_url, html, limit)`: anchors are the
`a[href]` values already resolved by `abs_url`/`urljoin` (external), in
document order; `base_netloc = urlparse(base_url).netloc`; accepted
links are truncated at `limit` and then de-duplicated preserving
order. -/
def collect_same_domain_links (base_netloc : String) (anchors : List Url)
    (limit : Nat) : List String :=
  dedupKeep [] (((anchors.filter (keepLink base_netloc)).map urlString).take limit)

/-- One iteration of `crawl_rule`'s steady-state branch (lines 278-292):
skip non-hits and known URLs, otherwise notify and record.  All sends
succeed here; a raising send is modelled by `steady_notify_once`. -/
def steadyStep (sha1 : String → String) (name : String) (keywords : List String)
    (st : Store × List ItemA) (d : ItemA) : Store × List ItemA :=
  if !(title_hit d.title keywords) then st
  else if known_by_url d.url st.1 then st
  else (save_known sha1 d name st.1, st.2 ++ [d])

/-- `crawl_rule(rule)` over the already-parsed details of all entrance
links, in crawl order (entrance fetching, link collection and
`parse_detail` are external; failed parses are already dropped).
Steady state (`already_seen_site and not force_initial`) notifies every
unknown matched URL; otherwise the matched candidates are sorted by
`date_key` descending (Python's stable sort), the head is notified —
when `seed_latest` forces it or its URL is unknown — and the rest are
recorded silently.  Returns the store and the notified items. -/
def crawl_rule (sha1 : String → String) (name : String) (keywords : List String)
    (seed_latest : Bool) (items : List ItemA) (db : Store) : Store × List ItemA :=
  let already_seen_site := site_has_any_seen name db
  if already_seen_site && !seed_latest then
    items.foldl (steadyStep sha1 name keywords) (db, [])
  else
    let candidates := items.filter (fun d => title_hit d.title keywords)
    match sortRev date_lt candidates with
    | [] => (db, [])
    | top :: rest =>
      let first :=
        if seed_latest || !(known_by_url top.url db) then
          (save_known sha1 top name db, [top])
        else (db, [])
      (rest.foldl
        (fun acc d => if known_by_url d.url acc then acc else save_known sha1 d name acc)
        first.1,
       first.2)

/-- The steady-state notify branch for one matched unknown item
(`crawl_rule` lines 282-292): `send_mail` runs before `save_known`, so
when the send raises (`send_ok = false`) the per-link handler catches
the exception and `save_known` never executes. -/
def steady_notify_once (sha1 : String → String) (name : String) (d : ItemA)
    (db : Store) (send_ok : Bool) : Store × Bool :=
  if send_ok then (save_known sha1 d name db, true) else (db, false)

/-- The soup features `extract_title` reads: stripped text of the first
`h1` (`none` when absent), the raw `soup.title.string` (`none` when the
tag is absent or its string is `None`), and stripped text of the first
`h2` (`none` when absent). -/
structure SoupA where
  h1 : Option String
  titleStr : Option String
  h2 : Option String
deriving DecidableEq

/-- `extract_title(soup)`: the `h1` text when non-empty, else the
stripped `title` string when the raw string is non-empty, else the `h2`
text when an `h2` exists, else `""` — there is no URL fallback in this
revision. -/
def extract_title (s : SoupA) : String :=
  if s.h1.getD "" ≠ "" then s.h1.getD ""
  else if s.titleStr.getD "" ≠ "" then trimS (s.titleStr.getD "")
  else s.h2.getD ""

end MonitorA

/-- Modelled from the spec: claim C7's title rule — "the extracted title
is the first non-empty of: (a) the first h1 element's text, (b) the
document title, (c) the first h2 element's text …; if all three are
empty, the title falls back to the URL string itself". -/
def claimC7Title (h1 docTitle h2 : Option String) (url : String) : String :=
  if h1.getD "" ≠ "" then h1.getD ""
  else if docTitle.getD "" ≠ "" then docTitle.getD ""
  else if h2.getD "" ≠ "" then h2.getD ""
  else url

/-- A concrete stand-in for the external hash used when evaluating the
embedded functions on sample inputs. -/
def shaW : String → String := fun s => "#" ++ s

/-- A concrete store row used to evaluate the embedded functions. -/
def sampleRow : Row :=
  { id := "id1", url := "https://www.shigaplaza.or.jp/news/1",
    title := "補助金のご案内", published := "2024.05.01", updated := "",
    src := "https://www.shigaplaza.or.jp/" }

/-- A concrete parsed item of the `monitor_shigaplaza.py` revision. -/
def sampleItemA : MonitorA.ItemA :=
  { url := "https://www.shigaplaza.or.jp/news/1", title := "補助金のご案内",
    published := some ("2024.05.01") }

/-- A second concrete parsed item of the `monitor_shigaplaza.py`
revision, with an older date and a larger URL. -/
def sampleItemA2 : MonitorA.ItemA :=
  { url := "https://www.shigaplaza.or.jp/news/2", title := "セミナー開催",
    published := some ("2024.04.30") }

/-- A concrete parsed item of the v1.3/v1.6 revisions. -/
def sampleItemB : MonitorBC.ItemB :=
  { url := "https://www.kstcci.or.jp/news/post100", title := "補助金のご案内",
    published := "2024.05.01", updated := "", hit := true }

/-- A second concrete parsed item of the v1.3/v1.6 revisions. -/
def sampleItemB2 : MonitorBC.ItemB :=
  { url := "https://www.kstcci.or.jp/news/post99", title := "講座のお知らせ",
    published := "2024.04.30", updated := "", hit := true }

/-- Two parsed items with equal dates and increasing URLs, exhibiting the
tie behaviour of `crawl_rule`'s candidate sort. -/
def sampleTieA : MonitorA.ItemA :=
  { url := "https://moriyama-cci.or.jp/news/1", title := "補助金その一",
    published := some ("2024.05.01") }

/-- The second equal-dated item; its URL sorts after `sampleTieA`'s. -/
def sampleTieB : MonitorA.ItemA :=
  { url := "https://moriyama-cci.or.jp/news/2", title := "補助金その二",
    published := some ("2024.05.01") }

/-- A concrete prior row seeding host `www.kstcci.or.jp`. -/
def sampleRowK : Row :=
  { id := "k0", url := "https://www.kstcci.or.jp/news/post1", title := "旧記事",
    published := "2024.01.01", updated := "", src := "https://www.kstcci.or.jp/news" }

/-- A concrete prior row recorded under source name `草津商工会議所`. -/
def sampleRowA0 : Row :=
  { id := "a0", url := "https://www.kstcci.or.jp/old", title := "旧記事",
    published := "", updated := "", src := "草津商工会議所" }

theorem mem_insRev {lt : α → α → Bool} {x a : α} {l : List α} :
    a ∈ insRev lt x l ↔ a = x ∨ a ∈ l := by
  induction l with
  | nil => simp [insRev]
  | cons y ys ih =>
    rw [insRev]
    by_cases h : lt x y = true
    · rw [if_pos h]
      simp only [List.mem_cons, ih]
      tauto
    · rw [if_neg h]
      simp only [List.mem_cons]

theorem mem_sortRev {lt : α → α → Bool} {a : α} {l : List α} :
    a ∈ sortRev lt l ↔ a ∈ l := by
  induction l with
  | nil => simp [sortRev]
  | cons x xs ih =>
    simp only [sortRev, List.foldr] at *
    rw [mem_insRev, ih, List.mem_cons]

theorem mem_dedupKeep {seen : List String} {a : String} {l : List String} :
    a ∈ dedupKeep seen l → a ∈ l := by
  induction l generalizing seen with
  | nil => simp [dedupKeep]
  | cons x r ih =>
    rw [dedupKeep]
    by_cases h : seen.contains x = true
    · rw [if_pos h]
      intro hm
      exact List.mem_cons_of_mem _ (ih hm)
    · rw [if_neg h]
      intro hm
      rcases List.mem_cons.1 hm with h1 | h1
      · exact h1 ▸ List.mem_cons_self _ _
      · exact List.mem_cons_of_mem _ (ih h1)

theorem known_append {i : String} {db : Store} {r : Row} :
    MonitorBC.known i (db ++ [r]) = (MonitorBC.known i db || (r.id == i)) := by
  simp [MonitorBC.known]

theorem known_save_self (r : Row) (db : Store) :
    MonitorBC.known r.id (MonitorBC.save r db) = true := by
  rw [MonitorBC.save]
  by_cases h : MonitorBC.known r.id db = true
  · rw [if_pos h]; exact h
  · rw [if_neg h, known_append]
    simp

theorem known_save_mono {i : String} (r : Row) {db : Store}
    (h : MonitorBC.known i db = true) :
    MonitorBC.known i (MonitorBC.save r db) = true := by
  rw [MonitorBC.save]
  by_cases hk : MonitorBC.known r.id db = true
  · rw [if_pos hk]; exact h
  · rw [if_neg hk, known_append, h]
    rfl

theorem save_of_known {r : Row} {db : Store}
    (h : MonitorBC.known r.id db = true) :
    MonitorBC.save r db = db := by
  rw [MonitorBC.save, if_pos h]

theorem filter_id_nil_of_unknown {i : String} {db : Store}
    (h : MonitorBC.known i db = false) :
    db.filter (fun r => r.id == i) = [] := by
  rw [List.filter_eq_nil_iff]
  intro a ha
  rw [MonitorBC.known, List.any_eq_false] at h
  exact h a ha

theorem filter_id_one_of_nodup {i : String} {db : Store}
    (hnd : (db.map Row.id).Nodup) (hk : MonitorBC.known i db = true) :
    (db.filter (fun r => r.id == i)).length = 1 := by
  induction db with
  | nil => simp [MonitorBC.known] at hk
  | cons r rest ih =>
    rw [List.map_cons, List.nodup_cons] at hnd
    by_cases h : (r.id == i) = true
    · rw [List.filter_cons, if_pos h]
      have hri : r.id = i := by simpa using h
      have hunk : MonitorBC.known i rest = false := by
        rw [MonitorBC.known, List.any_eq_false]
        intro a ha hai
        exact hnd.1 (hri ▸ (by simpa using hai) ▸ List.mem_map_of_mem Row.id ha)
      rw [filter_id_nil_of_unknown hunk]
      rfl
    · rw [List.filter_cons, if_neg (by simp_all)]
      have hk2 : MonitorBC.known i rest = true := by
        rw [MonitorBC.known] at hk ⊢
        simpa [h] using hk
      exact ih hnd.2 hk2

theorem append_bar_ne_empty (url x : String) : url ++ "|" ++ x ≠ "" := by
  intro h
  have h2 := congrArg String.data h
  rw [String.data_append, String.data_append] at h2
  simp at h2

/-- C2: `make_item_id` is a pure function of `(url, updated, published,
rule)`: it returns `sha(url)` when the rule's `brand_new_only` flag is
set and `sha(url ++ "|" ++ (updated or published))` otherwise (the
`basis or url` fallback in the source is dead, since `basis` always
contains `"|"`), and repeated calls on equal inputs return identical
identities. -/
theorem c2_identity_deterministic (sha : String → String)
    (url updated published : String) (rule : MonitorBC.SiteRule) :
    MonitorBC.make_item_id sha url updated published rule
      = (if rule.brand_new_only then sha url
         else sha (url ++ "|" ++ (if updated = "" then published else updated)))
    ∧ MonitorBC.make_item_id sha url updated published rule
      = MonitorBC.make_item_id sha url updated published rule := by
  refine ⟨?_, rfl⟩
  cases hb : rule.brand_new_only
  · simp only [MonitorBC.make_item_id, hb, Bool.false_eq_true, if_false]
    rw [if_neg (append_bar_ne_empty url _)]
  · simp [MonitorBC.make_item_id, hb]

/-- C9: under `brand_new_only` the identity depends on the URL alone —
`make_item_id` returns `sha(url)` for all values of `updated` and
`published`, so no change to an article's dates (or title or body) can
produce a new identity under that policy. -/
theorem c9_brand_new_only_url_only (sha : String → String) (url : String)
    (rule : MonitorBC.SiteRule) (h : rule.brand_new_only = true)
    (updated published updated2 published2 : String) :
    MonitorBC.make_item_id sha url updated published rule = sha url
    ∧ MonitorBC.make_item_id sha url updated published rule
        = MonitorBC.make_item_id sha url updated2 published2 rule := by
  simp [MonitorBC.make_item_id, h]

theorem c9_brand_new_only_url_only_witness :
    (MonitorBC.SiteRule.mk true).brand_new_only = true
    ∧ (MonitorBC.make_item_id shaW ("https://www.kstcci.or.jp/news/post100")
         ("2024.05.01") ("2024.04.01") (MonitorBC.SiteRule.mk true)
         = shaW ("https://www.kstcci.or.jp/news/post100")
       ∧ MonitorBC.make_item_id shaW ("https://www.kstcci.or.jp/news/post100")
           ("2024.05.01") ("2024.04.01") (MonitorBC.SiteRule.mk true)
         = MonitorBC.make_item_id shaW ("https://www.kstcci.or.jp/news/post100")
             ("2025.01.01") ("") (MonitorBC.SiteRule.mk true)) :=
  ⟨rfl, c9_brand_new_only_url_only shaW ("https://www.kstcci.or.jp/news/post100")
    (MonitorBC.SiteRule.mk true) rfl ("2024.05.01") ("2024.04.01") ("2025.01.01") ("")⟩

/-- C3: calling `record` (`save`) twice with the same identity leaves
exactly one row with that identity, the second call changes nothing
(`save` never overwrites an existing row), and `known` is true after
either call and stays true under every later `save`, for the life of
the store. -/
theorem c3_record_idempotent (item item2 : Row) (db : Store)
    (hnd : (db.map Row.id).Nodup) (heq : item2.id = item.id) :
    MonitorBC.save item2 (MonitorBC.save item db) = MonitorBC.save item db
    ∧ ((MonitorBC.save item db).filter (fun r => r.id == item.id)).length = 1
    ∧ MonitorBC.known item.id (MonitorBC.save item db) = true
    ∧ MonitorBC.known item.id (MonitorBC.save item2 (MonitorBC.save item db)) = true
    ∧ (∀ (x : Row) (db2 : Store), MonitorBC.known item.id db2 = true →
        MonitorBC.known item.id (MonitorBC.save x db2) = true)
    ∧ (∀ (x : Row) (db2 : Store), MonitorBC.known x.id db2 = true →
        MonitorBC.save x db2 = db2) := by
  have h1 : MonitorBC.known item.id (MonitorBC.save item db) = true :=
    known_save_self item db
  have h2 : MonitorBC.save item2 (MonitorBC.save item db) = MonitorBC.save item db :=
    save_of_known (heq ▸ h1)
  refine ⟨h2, ?_, h1, by rw [h2]; exact h1, fun x db2 hk => known_save_mono x hk,
    fun x db2 hk => save_of_known hk⟩
  by_cases hk : MonitorBC.known item.id db = true
  · rw [save_of_known hk]
    exact filter_id_one_of_nodup hnd hk
  · have hk2 : MonitorBC.known item.id db = false := by simpa using hk
    rw [MonitorBC.save, if_neg (by simp [hk2]), List.filter_append,
      filter_id_nil_of_unknown hk2]
    simp

theorem c3_record_idempotent_witness :
    (([] : Store).map Row.id).Nodup ∧ sampleRow.id = sampleRow.id
    ∧ ((MonitorBC.save sampleRow []).filter (fun r => r.id == sampleRow.id)).length = 1
    ∧ MonitorBC.save sampleRow (MonitorBC.save sampleRow []) = MonitorBC.save sampleRow [] :=
  ⟨by simp, rfl, (c3_record_idempotent sampleRow sampleRow [] (by simp) rfl).2.1,
    (c3_record_idempotent sampleRow sampleRow [] (by simp) rfl).1⟩

/-- C5 counterexample: the claim "a failure of the notification send
does not prevent the item from being recorded" is false for
`monitor_shigaplaza.py`, whose steady-state branch calls `send_mail`
before `save_known`: with an empty store and a matched unknown item, a
raising send leaves the store empty, so the item is not marked seen and
is re-attempted on the next run. -/
theorem c5_send_failure_counterexample :
    (MonitorA.steady_notify_once shaW ("滋賀県産業支援プラザ") sampleItemA [] false).1 = []
    ∧ MonitorA.known_by_url sampleItemA.url
        (MonitorA.steady_notify_once shaW ("滋賀県産業支援プラザ") sampleItemA [] false).1
      = false := by
  exact ⟨rfl, rfl⟩

/-- C5 amended: in the v1.3/v1.6 revisions `save` executes before
`send_mail`, so the store update is independent of the send outcome and
the item is known afterwards even when the send raises; in
`monitor_shigaplaza.py` the send precedes the save, so a failed send
leaves the store unchanged and the item unrecorded. -/
theorem c5_record_before_send (sha : String → String) (rule : MonitorBC.SiteRule)
    (src : String) (d : MonitorBC.ItemB) (db : Store) (send_ok : Bool) :
    (MonitorBC.steady_notify_once sha rule src d db send_ok).1
      = MonitorBC.save (MonitorBC.itemRow sha rule src d) db
    ∧ MonitorBC.known (MonitorBC.make_item_id sha d.url d.updated d.published rule)
        (MonitorBC.steady_notify_once sha rule src d db send_ok).1 = true
    ∧ (∀ (sha1 : String → String) (name : String) (dA : MonitorA.ItemA) (dbA : Store),
        (MonitorA.steady_notify_once sha1 name dA dbA false).1 = dbA) := by
  refine ⟨rfl, ?_, fun sha1 name dA dbA => rfl⟩
  exact known_save_self (MonitorBC.itemRow sha rule src d) db

theorem data_lowerStr_append (a b : String) :
    (lowerStr (a ++ b)).data = (lowerStr a).data ++ (lowerStr b).data := by
  simp [lowerStr, String.data_append]

theorem not_like_https_of_http {s : String} (host : String)
    (h : strStarts ("http://".data) (lowerStr s).data = true) :
    MonitorBC.likeStarts ("https://" ++ host ++ "/") s = false := by
  rw [MonitorBC.likeStarts]
  by_contra hx
  have hx2 : strStarts (lowerStr ("https://" ++ host ++ "/")).data (lowerStr s).data = true := by
    simpa using hx
  rw [strStarts, List.isPrefixOf_iff_prefix] at h hx2
  obtain ⟨t1, e1⟩ := h
  obtain ⟨t2, e2⟩ := hx2
  rw [data_lowerStr_append, data_lowerStr_append] at e2
  have hlit : (lowerStr ("https://")).data = 'h' :: 't' :: 't' :: 'p' :: 's' :: ("://".data) := rfl
  rw [hlit] at e2
  have e3 : ['h', 't', 't', 'p', ':', '/', '/'] ++ t1
      = ['h', 't', 't', 'p', 's', ':', '/', '/']
        ++ ((lowerStr host).data ++ ((lowerStr ("/")).data ++ t2)) := by
    rw [← e2] at e1
    simp only [List.append_assoc] at e1
    exact e1
  simp only [List.cons_append, List.cons.injEq] at e3
  obtain ⟨-, -, -, -, h5, -⟩ := e3
  exact absurd h5 (by decide)

/-- C10 counterexample: `host_seeded` can return true although no stored
row's `url` or `src` starts with the literal string
`"https://" + host + "/"` — SQLite `LIKE` is ASCII-case-insensitive, so
an upper-cased stored URL matches the pattern. -/
theorem c10_host_seeded_counterexample :
    MonitorBC.host_seeded ("www.shigaplaza.or.jp")
      [{ id := "i9", url := "HTTPS://WWW.SHIGAPLAZA.OR.JP/news/9", title := "t",
         published := "", updated := "", src := "x" }] = true
    ∧ strStarts ("https://www.shigaplaza.or.jp/".data)
        ("HTTPS://WWW.SHIGAPLAZA.OR.JP/news/9".data) = false
    ∧ strStarts ("https://www.shigaplaza.or.jp/".data) ("x".data) = false := by
  refine ⟨by decide, by decide, by decide⟩

/-- C10 amended: `host_seeded(host)` returns true iff some stored row's
`url` or `src` starts, ASCII-case-insensitively (SQLite `LIKE`), with
`"https://" + host + "/"`; consequently, for a store all of whose rows'
`url` and `src` use the `http://` scheme, `host_seeded` returns false
for every host on every call, and such a host is treated as unseeded
(first-run seed mode) on every run regardless of how many of its items
are stored. -/
theorem c10_http_scheme_never_seeded (host : String) (db : Store) :
    (MonitorBC.host_seeded host db = true ↔
      ∃ r ∈ db, (MonitorBC.likeStarts ("https://" ++ host ++ "/") r.url = true
        ∨ MonitorBC.likeStarts ("https://" ++ host ++ "/") r.src = true))
    ∧ ((∀ r ∈ db, strStarts ("http://".data) (lowerStr r.url).data = true
          ∧ strStarts ("http://".data) (lowerStr r.src).data = true) →
        MonitorBC.host_seeded host db = false) := by
  constructor
  · rw [MonitorBC.host_seeded, List.any_eq_true]
    simp only [Bool.or_eq_true]
  · intro h
    rw [MonitorBC.host_seeded, List.any_eq_false]
    intro r hr
    rw [Bool.or_eq_true]
    push_neg
    exact ⟨by simp [not_like_https_of_http host (h r hr).1],
      by simp [not_like_https_of_http host (h r hr).2]⟩

theorem c10_http_scheme_never_seeded_witness :
    (∀ r ∈ [{ id := "i8", url := "http://www.koka-sci.jp/news/8", title := "t",
              published := "", updated := "", src := "http://www.koka-sci.jp/" }],
        strStarts ("http://".data) (lowerStr (Row.url r)).data = true
        ∧ strStarts ("http://".data) (lowerStr (Row.src r)).data = true)
    ∧ MonitorBC.host_seeded ("www.koka-sci.jp")
        [{ id := "i8", url := "http://www.koka-sci.jp/news/8", title := "t",
           published := "", updated := "", src := "http://www.koka-sci.jp/" }] = false :=
  ⟨by decide, (c10_http_scheme_never_seeded ("www.koka-sci.jp") _).2 (by decide)⟩

/-- C7 counterexample: the claimed chain "h1, document title, h2, else
the URL" is not what `monitor_shigaplaza.py` computes — on a page with
no `h1`, no `title` and no `h2`, `extract_title` returns `""` (and
`parse_detail` stores `title or ""` = `""`), not the URL. -/
theorem c7_title_counterexample :
    MonitorA.extract_title { h1 := none, titleStr := none, h2 := none } = ""
    ∧ claimC7Title none none none ("https://www.shigaplaza.or.jp/news/9")
        = "https://www.shigaplaza.or.jp/news/9"
    ∧ MonitorA.extract_title { h1 := none, titleStr := none, h2 := none }
        ≠ claimC7Title none none none ("https://www.shigaplaza.or.jp/news/9") := by
  refine ⟨rfl, rfl, by decide⟩

/-- C7 amended: in `monitor_shigaplaza.py` the title is the first
non-empty of the `h1` text and the document title (the fall-through is
gated on the raw `title` string, which is returned stripped), then the
first `h2`'s text when an `h2` exists, else the empty string — never
the URL; in the other two revisions the title is the `h1`'s text
whenever an `h1` element exists (even when that text is empty), else
the `title` tag's text when the tag exists, else the URL string. -/
theorem c7_title_priority_chain (s : MonitorA.SoupA) (sb : MonitorBC.SoupBC)
    (url : String) :
    (∀ t, s.h1 = some t → t ≠ "" → MonitorA.extract_title s = t)
    ∧ (s.h1.getD "" = "" → ∀ ts, s.titleStr = some ts → ts ≠ "" →
        MonitorA.extract_title s = trimS ts)
    ∧ (s.h1.getD "" = "" → s.titleStr.getD "" = "" →
        MonitorA.extract_title s = s.h2.getD "")
    ∧ (∀ t, sb.h1 = some t → MonitorBC.parse_detail_title sb url = t)
    ∧ (sb.h1 = none → ∀ ts, sb.titleTxt = some ts →
        MonitorBC.parse_detail_title sb url = ts)
    ∧ (sb.h1 = none → sb.titleTxt = none →
        MonitorBC.parse_detail_title sb url = url) := by
  refine ⟨?_, ?_, ?_, ?_, ?_, ?_⟩
  · intro t ht hne
    simp [MonitorA.extract_title, ht, hne]
  · intro h0 ts hts hne
    simp [MonitorA.extract_title, h0, hts, hne]
  · intro h0 h1
    simp [MonitorA.extract_title, h0, h1]
  · intro t ht
    simp [MonitorBC.parse_detail_title, ht]
  · intro h0 ts hts
    simp [MonitorBC.parse_detail_title, h0, hts]
  · intro h0 h1
    simp [MonitorBC.parse_detail_title, h0, h1]

theorem c7_title_priority_chain_witness :
    MonitorA.extract_title { h1 := some ("補助金公募のお知らせ"), titleStr := some ("T"), h2 := none }
      = "補助金公募のお知らせ"
    ∧ MonitorA.extract_title { h1 := none, titleStr := some (" T "), h2 := none } = trimS (" T ")
    ∧ MonitorA.extract_title { h1 := some (""), titleStr := none, h2 := some ("H2") } = "H2"
    ∧ MonitorBC.parse_detail_title { h1 := some (""), titleTxt := some ("T") } ("u") = ""
    ∧ MonitorBC.parse_detail_title { h1 := none, titleTxt := some ("T") } ("u") = "T"
    ∧ MonitorBC.parse_detail_title { h1 := none, titleTxt := none } ("https://u/")
      = "https://u/" :=
  ⟨(c7_title_priority_chain { h1 := some ("補助金公募のお知らせ"), titleStr := some ("T"), h2 := none }
      { h1 := none, titleTxt := none } ("u")).1 _ rfl (by decide),
   (c7_title_priority_chain { h1 := none, titleStr := some (" T "), h2 := none }
      { h1 := none, titleTxt := none } ("u")).2.1 rfl (" T ") rfl (by decide),
   (c7_title_priority_chain { h1 := some (""), titleStr := none, h2 := some ("H2") }
      { h1 := none, titleTxt := none } ("u")).2.2.1 rfl rfl,
   (c7_title_priority_chain { h1 := none, titleStr := none, h2 := none }
      { h1 := some (""), titleTxt := some ("T") } ("u")).2.2.2.1 _ rfl,
   (c7_title_priority_chain { h1 := none, titleStr := none, h2 := none }
      { h1 := none, titleTxt := some ("T") } ("u")).2.2.2.2.1 rfl _ rfl,
   (c7_title_priority_chain { h1 := none, titleStr := none, h2 := none }
      { h1 := none, titleTxt := none } ("https://u/")).2.2.2.2.2 rfl rfl⟩

/-- C6 counterexample: `collect_same_domain_links` in
`monitor_shigaplaza.py` keeps a URL on a subdomain of the entrance
host — the filter is `netloc.endswith(base_netloc)`, a suffix test, so
`www.moriyama-cci.or.jp` passes against entrance host
`moriyama-cci.or.jp` although the hosts differ. -/
theorem c6_subdomain_counterexample :
    MonitorA.collect_same_domain_links ("moriyama-cci.or.jp")
      [{ scheme := "https", netloc := "www.moriyama-cci.or.jp", path := "/news/1", rest := "" }] 80
      = ["https://www.moriyama-cci.or.jp/news/1"]
    ∧ ("www.moriyama-cci.or.jp" : String) ≠ "moriyama-cci.or.jp" := by
  refine ⟨by decide, by decide⟩

/-- C6 amended: in the v1.3/v1.6 revisions every candidate produced by
`pick_articles_from_list` has a host exactly equal to the entrance host
(`same_host` is equality, so subdomains are never candidates); in
`monitor_shigaplaza.py` a kept URL's netloc is only required to end
with the entrance netloc string, so subdomains (and any host whose name
ends in that string) can be candidates. -/
theorem c6_same_host_exact (host : String) (patterns : String → Bool)
    (anchors : List String) (u : String)
    (hu : u ∈ MonitorBC.pick_articles_from_list host patterns anchors) :
    MonitorBC.host_of u = host
    ∧ ∀ (base : String) (ancA : List MonitorA.Url) (lim : Nat) (s : String),
        s ∈ MonitorA.collect_same_domain_links base ancA lim →
        ∃ v ∈ ancA, s = MonitorA.urlString v
          ∧ List.isSuffixOf base.data v.netloc.data = true := by
  constructor
  · simp only [MonitorBC.pick_articles_from_list] at hu
    have h2 := List.take_subset _ _ hu
    simp only [sortAsc] at h2
    have h3 := mem_dedupKeep (mem_sortRev.1 h2)
    obtain ⟨raw, hraw, heq⟩ := List.mem_filterMap.1 h3
    split at heq
    · cases heq
    · split at heq
      · cases heq
      · split at heq
        · rename_i c1 c2 c3
          have hu2 : MonitorBC.norm_url raw = u := by
            simpa using heq
          have c2h : MonitorBC.same_host (MonitorBC.norm_url raw) host = true := by
            simpa using c2
          rw [MonitorBC.same_host, hu2] at c2h
          simpa using c2h
        · cases heq
  · intro base ancA lim s hs
    rw [MonitorA.collect_same_domain_links] at hs
    have h1 := mem_dedupKeep hs
    have h2 := List.take_subset _ _ h1
    obtain ⟨v, hvf, hvs⟩ := List.mem_map.1 h2
    have hv2 := List.mem_filter.1 hvf
    refine ⟨v, hv2.1, hvs.symm, ?_⟩
    have hk := hv2.2
    rw [MonitorA.keepLink] at hk
    simp only [Bool.and_eq_true] at hk
    exact hk.1.2

theorem c6_same_host_exact_witness :
    ("https://www.kstcci.or.jp/news/post1"
        ∈ MonitorBC.pick_articles_from_list ("www.kstcci.or.jp") (fun _ => true)
            ["https://www.kstcci.or.jp/news/post1"])
    ∧ MonitorBC.host_of ("https://www.kstcci.or.jp/news/post1") = "www.kstcci.or.jp" :=
  ⟨by decide,
   (c6_same_host_exact ("www.kstcci.or.jp") (fun _ => true)
      (["https://www.kstcci.or.jp/news/post1"]) ("https://www.kstcci.or.jp/news/post1")
      (by decide)).1⟩

theorem foldl_skip_filter {α β : Type} (f : β → α → β) (p : α → Bool)
    (hf : ∀ s a, p a = false → f s a = s) (l : List α) (init : β) :
    l.foldl f init = (l.filter p).foldl f init := by
  induction l generalizing init with
  | nil => rfl
  | cons x xs ih =>
    rw [List.foldl_cons, List.filter_cons]
    by_cases h : p x = true
    · rw [if_pos h, List.foldl_cons, ih]
    · have h0 : p x = false := by simpa using h
      rw [if_neg (by simp [h0]), hf init x h0, ih]

theorem any_save_mono {p : Row → Bool} {db : Store} (r : Row)
    (h : db.any p = true) : (MonitorBC.save r db).any p = true := by
  rw [MonitorBC.save]
  by_cases hk : MonitorBC.known r.id db = true
  · rw [if_pos hk]
    exact h
  · rw [if_neg hk, List.any_append, h]
    rfl

theorem host_seeded_save_mono {host : String} {db : Store} (r : Row)
    (h : MonitorBC.host_seeded host db = true) :
    MonitorBC.host_seeded host (MonitorBC.save r db) = true := by
  rw [MonitorBC.host_seeded] at h ⊢
  exact any_save_mono r h

theorem any_save_item_mono {p : Row → Bool} {db : Store} (r : Row)
    (h : db.any p = true) : (MonitorA.save_item r db).any p = true := by
  rw [MonitorA.save_item]
  by_cases hk : db.any (fun q => q.id == r.id) = true
  · rw [if_pos hk]
    exact h
  · rw [if_neg hk, List.any_append, h]
    rfl

theorem site_seen_save_known_mono {name : String} {db : Store}
    (sha1 : String → String) (d : MonitorA.ItemA) (nm : String)
    (h : MonitorA.site_has_any_seen name db = true) :
    MonitorA.site_has_any_seen name (MonitorA.save_known sha1 d nm db) = true := by
  rw [MonitorA.site_has_any_seen] at h ⊢
  rw [MonitorA.save_known]
  exact any_save_item_mono _ h

theorem known_by_url_save_known_mono {u : String} {db : Store}
    (sha1 : String → String) (d : MonitorA.ItemA) (nm : String)
    (h : MonitorA.known_by_url u db = true) :
    MonitorA.known_by_url u (MonitorA.save_known sha1 d nm db) = true := by
  rw [MonitorA.known_by_url] at h ⊢
  rw [MonitorA.save_known]
  exact any_save_item_mono _ h

theorem known_by_url_save_known_self {db : Store}
    (sha1 : String → String) (d : MonitorA.ItemA) (nm : String)
    (hid : db.any (fun r => r.id == sha1 d.url) = false) :
    MonitorA.known_by_url d.url (MonitorA.save_known sha1 d nm db) = true := by
  rw [MonitorA.known_by_url, MonitorA.save_known, MonitorA.save_item]
  rw [if_neg (by simp [hid])]
  simp [List.any_append]

/-- C4: steady state — for a site with at least one prior SeenRecord and
no override, a run that discovers exactly one matched item whose
identity (v1.3/v1.6) or URL (`monitor_shigaplaza.py`) is not yet stored
sends exactly one notification, for that item, and records it; an
immediate re-run on the same inputs sends zero notifications.  (The
`hidA` hypothesis is the store-consistency assumption that the hash of
the unseen URL is not already present under another row.) -/
theorem c4_steady_new_only (sha sha1 : String → String) (rule : MonitorBC.SiteRule)
    (host : String) (force_seed : Bool) (found : List (String × MonitorBC.ItemB))
    (src : String) (d : MonitorBC.ItemB) (db : Store)
    (name : String) (keywords : List String) (itemsA : List MonitorA.ItemA)
    (dA : MonitorA.ItemA) (dbA : Store)
    (hseed : MonitorBC.host_seeded host db = true)
    (hfound : found.filter (fun sd => sd.2.hit) = [(src, d)])
    (hunk : MonitorBC.known
        (MonitorBC.make_item_id sha d.url d.updated d.published rule) db = false)
    (hsiteA : MonitorA.site_has_any_seen name dbA = true)
    (hitemsA : itemsA.filter (fun x => MonitorA.title_hit x.title keywords) = [dA])
    (hunkA : MonitorA.known_by_url dA.url dbA = false)
    (hidA : dbA.any (fun r => r.id == sha1 dA.url) = false) :
    (MonitorBC.runHost sha rule host force_seed found db).2 = [d]
    ∧ (MonitorBC.runHost sha rule host force_seed found db).1
        = MonitorBC.save (MonitorBC.itemRow sha rule src d) db
    ∧ (MonitorBC.runHost sha rule host force_seed found
         (MonitorBC.runHost sha rule host force_seed found db).1).2 = []
    ∧ (MonitorA.crawl_rule sha1 name keywords false itemsA dbA).2 = [dA]
    ∧ (MonitorA.crawl_rule sha1 name keywords false itemsA dbA).1
        = MonitorA.save_known sha1 dA name dbA
    ∧ (MonitorA.crawl_rule sha1 name keywords false itemsA
         (MonitorA.crawl_rule sha1 name keywords false itemsA dbA).1).2 = [] := by
  have hdhit : d.hit = true := by
    have hmem : ((src, d) : String × MonitorBC.ItemB)
        ∈ found.filter (fun sd => sd.2.hit) := by
      rw [hfound]
      exact List.mem_cons_self _ _
    simpa using (List.mem_filter.1 hmem).2
  have hAhit : MonitorA.title_hit dA.title keywords = true := by
    have hmem : dA ∈ itemsA.filter (fun x => MonitorA.title_hit x.title keywords) := by
      rw [hitemsA]
      exact List.mem_cons_self _ _
    simpa using (List.mem_filter.1 hmem).2
  have hskip : ∀ (b : Bool) (s : Store × List MonitorBC.ItemB) (a : String × MonitorBC.ItemB),
      (fun sd => sd.2.hit) a = false → MonitorBC.crawlStep sha rule b s a = s := by
    intro b s a ha
    simp only at ha
    simp [MonitorBC.crawlStep, ha]
  have hskipA : ∀ (s : Store × List MonitorA.ItemA) (a : MonitorA.ItemA),
      (fun x => MonitorA.title_hit x.title keywords) a = false →
      MonitorA.steadyStep sha1 name keywords s a = s := by
    intro s a ha
    simp only at ha
    simp [MonitorA.steadyStep, ha]
  -- first BC run
  have hrun1 : MonitorBC.runHost sha rule host force_seed found db
      = (MonitorBC.save (MonitorBC.itemRow sha rule src d) db, [d]) := by
    rw [MonitorBC.runHost,
      foldl_skip_filter _ (fun sd => sd.2.hit) (hskip _) found (db, []), hfound]
    simp [MonitorBC.crawlStep, hdhit, hunk, hseed]
  -- second BC run
  have hrun2 : (MonitorBC.runHost sha rule host force_seed found
      (MonitorBC.save (MonitorBC.itemRow sha rule src d) db)).2 = [] := by
    rw [MonitorBC.runHost,
      foldl_skip_filter _ (fun sd => sd.2.hit) (hskip _) found _, hfound]
    have hk2 : MonitorBC.known
        (MonitorBC.make_item_id sha d.url d.updated d.published rule)
        (MonitorBC.save (MonitorBC.itemRow sha rule src d) db) = true :=
      known_save_self (MonitorBC.itemRow sha rule src d) db
    simp [MonitorBC.crawlStep, hdhit, hk2]
  -- first A run
  have hrunA1 : MonitorA.crawl_rule sha1 name keywords false itemsA dbA
      = (MonitorA.save_known sha1 dA name dbA, [dA]) := by
    rw [MonitorA.crawl_rule]
    rw [if_pos (by simp [hsiteA])]
    rw [foldl_skip_filter _ (fun x => MonitorA.title_hit x.title keywords) hskipA itemsA _,
      hitemsA]
    simp [MonitorA.steadyStep, hAhit, hunkA]
  -- second A run
  have hrunA2 : (MonitorA.crawl_rule sha1 name keywords false itemsA
      (MonitorA.save_known sha1 dA name dbA)).2 = [] := by
    rw [MonitorA.crawl_rule]
    rw [if_pos (by simp [site_seen_save_known_mono sha1 dA name hsiteA])]
    rw [foldl_skip_filter _ (fun x => MonitorA.title_hit x.title keywords) hskipA itemsA _,
      hitemsA]
    have hk2 : MonitorA.known_by_url dA.url (MonitorA.save_known sha1 dA name dbA) = true :=
      known_by_url_save_known_self sha1 dA name hidA
    simp [MonitorA.steadyStep, hAhit, hk2]
  refine ⟨by rw [hrun1], by rw [hrun1], ?_, by rw [hrunA1], by rw [hrunA1], ?_⟩
  · rw [hrun1]
    exact hrun2
  · rw [hrunA1]
    exact hrunA2

theorem c4_steady_new_only_witness :
    MonitorBC.host_seeded ("www.kstcci.or.jp") [sampleRowK] = true
    ∧ ([((("https://www.kstcci.or.jp/news") : String), sampleItemB)].filter
        (fun sd => sd.2.hit)) = [("https://www.kstcci.or.jp/news", sampleItemB)]
    ∧ (MonitorBC.runHost shaW (MonitorBC.SiteRule.mk false) ("www.kstcci.or.jp") true
        [("https://www.kstcci.or.jp/news", sampleItemB)] [sampleRowK]).2 = [sampleItemB]
    ∧ (MonitorA.crawl_rule shaW ("草津商工会議所") ["補助金"] false [sampleItemA]
        [sampleRowA0]).2 = [sampleItemA] := by
  refine ⟨by decide, by decide, ?_, ?_⟩
  · exact (c4_steady_new_only shaW shaW (MonitorBC.SiteRule.mk false) ("www.kstcci.or.jp")
      true [("https://www.kstcci.or.jp/news", sampleItemB)] ("https://www.kstcci.or.jp/news")
      sampleItemB [sampleRowK] ("草津商工会議所") ["補助金"] [sampleItemA] sampleItemA
      [sampleRowA0] (by decide) (by decide) (by decide) (by decide) (by decide) (by decide)
      (by decide)).1
  · exact (c4_steady_new_only shaW shaW (MonitorBC.SiteRule.mk false) ("www.kstcci.or.jp")
      true [("https://www.kstcci.or.jp/news", sampleItemB)] ("https://www.kstcci.or.jp/news")
      sampleItemB [sampleRowK] ("草津商工会議所") ["補助金"] [sampleItemA] sampleItemA
      [sampleRowA0] (by decide) (by decide) (by decide) (by decide) (by decide) (by decide)
      (by decide)).2.2.2.1

theorem crawlA_initial_latest (sha1 : String → String) (name : String)
    (keywords : List String) (sl : Bool) (itemsA : List MonitorA.ItemA)
    (xA yA : MonitorA.ItemA) (dbA : Store)
    (hsite0 : MonitorA.site_has_any_seen name dbA = false)
    (hsorted : sortRev MonitorA.date_lt
        (itemsA.filter (fun v => MonitorA.title_hit v.title keywords)) = [xA, yA])
    (kx : MonitorA.known_by_url xA.url dbA = false)
    (ky : MonitorA.known_by_url yA.url dbA = false)
    (kxId : dbA.any (fun r => r.id == sha1 xA.url) = false)
    (kyId : dbA.any (fun r => r.id == sha1 yA.url) = false)
    (hurl : xA.url ≠ yA.url) (hid : sha1 xA.url ≠ sha1 yA.url) :
    (MonitorA.crawl_rule sha1 name keywords sl itemsA dbA).2 = [xA]
    ∧ MonitorA.known_by_url xA.url
        (MonitorA.crawl_rule sha1 name keywords sl itemsA dbA).1 = true
    ∧ MonitorA.known_by_url yA.url
        (MonitorA.crawl_rule sha1 name keywords sl itemsA dbA).1 = true := by
  have hky1 : MonitorA.known_by_url yA.url (MonitorA.save_known sha1 xA name dbA) = false := by
    rw [MonitorA.save_known, MonitorA.save_item, if_neg (by simp [kxId])]
    rw [MonitorA.known_by_url] at ky ⊢
    simp [List.any_append, ky, hurl]
  have hid1 : (MonitorA.save_known sha1 xA name dbA).any
      (fun r => r.id == sha1 yA.url) = false := by
    rw [MonitorA.save_known, MonitorA.save_item, if_neg (by simp [kxId])]
    simp [List.any_append, kyId, hid]
  have hkx1 : MonitorA.known_by_url xA.url (MonitorA.save_known sha1 xA name dbA) = true :=
    known_by_url_save_known_self sha1 xA name kxId
  have hcr : MonitorA.crawl_rule sha1 name keywords sl itemsA dbA
      = (MonitorA.save_known sha1 yA name (MonitorA.save_known sha1 xA name dbA), [xA]) := by
    simp only [MonitorA.crawl_rule]
    rw [if_neg (by simp [hsite0])]
    rw [hsorted]
    simp only [List.foldl_cons, List.foldl_nil]
    rw [if_pos (show (sl || !MonitorA.known_by_url xA.url dbA) = true by simp [kx])]
    simp [hky1]
  refine ⟨by rw [hcr], ?_, ?_⟩
  · rw [hcr]
    exact known_by_url_save_known_mono sha1 yA name hkx1
  · rw [hcr]
    exact known_by_url_save_known_self sha1 yA name hid1

/-- C1: seed suppression — for a site with zero prior SeenRecords and
two keyword-matched candidates whose parsed dates satisfy D1 > D2, the
run sends zero item notifications under the silent-seed strategy (the
v1.3/v1.6 main loop with the default `FORCE_SEED=1`) and exactly one —
for the D1 item — under the latest-only strategy
(`monitor_shigaplaza.py`'s `crawl_rule`), in whichever order the two
candidates were discovered; never two.  Every matched item is recorded
in the store in either strategy.  (`kxId`/`kyId`/`hid` are the
store-consistency assumptions that the unseen URLs' hashes are not
already present and do not collide.) -/
theorem c1_seed_suppression
    (sha sha1 : String → String) (rule : MonitorBC.SiteRule) (host : String)
    (found : List (String × MonitorBC.ItemB)) (s1 s2 : String) (x y : MonitorBC.ItemB)
    (db : Store)
    (name : String) (keywords : List String) (itemsA : List MonitorA.ItemA)
    (xA yA : MonitorA.ItemA) (dbA : Store) (sl : Bool)
    (hseed0 : MonitorBC.host_seeded host db = false)
    (hfound : found.filter (fun sd => sd.2.hit) = [(s1, x), (s2, y)])
    (hx : MonitorBC.known
        (MonitorBC.make_item_id sha x.url x.updated x.published rule) db = false)
    (hsite0 : MonitorA.site_has_any_seen name dbA = false)
    (hdate : MonitorA.date_key yA < MonitorA.date_key xA)
    (kx : MonitorA.known_by_url xA.url dbA = false)
    (ky : MonitorA.known_by_url yA.url dbA = false)
    (kxId : dbA.any (fun r => r.id == sha1 xA.url) = false)
    (kyId : dbA.any (fun r => r.id == sha1 yA.url) = false)
    (hurl : xA.url ≠ yA.url) (hid : sha1 xA.url ≠ sha1 yA.url) :
    ((MonitorBC.runHost sha rule host true found db).2 = []
      ∧ MonitorBC.known (MonitorBC.make_item_id sha x.url x.updated x.published rule)
          (MonitorBC.runHost sha rule host true found db).1 = true
      ∧ MonitorBC.known (MonitorBC.make_item_id sha y.url y.updated y.published rule)
          (MonitorBC.runHost sha rule host true found db).1 = true)
    ∧ (itemsA.filter (fun v => MonitorA.title_hit v.title keywords) = [xA, yA] →
        (MonitorA.crawl_rule sha1 name keywords sl itemsA dbA).2 = [xA]
        ∧ MonitorA.known_by_url xA.url
            (MonitorA.crawl_rule sha1 name keywords sl itemsA dbA).1 = true
        ∧ MonitorA.known_by_url yA.url
            (MonitorA.crawl_rule sha1 name keywords sl itemsA dbA).1 = true)
    ∧ (itemsA.filter (fun v => MonitorA.title_hit v.title keywords) = [yA, xA] →
        (MonitorA.crawl_rule sha1 name keywords sl itemsA dbA).2 = [xA]
        ∧ MonitorA.known_by_url xA.url
            (MonitorA.crawl_rule sha1 name keywords sl itemsA dbA).1 = true
        ∧ MonitorA.known_by_url yA.url
            (MonitorA.crawl_rule sha1 name keywords sl itemsA dbA).1 = true) := by
  have hxhit : x.hit = true := by
    have hmem : ((s1, x) : String × MonitorBC.ItemB)
        ∈ found.filter (fun sd => sd.2.hit) := by
      rw [hfound]
      exact List.mem_cons_self _ _
    simpa using (List.mem_filter.1 hmem).2
  have hyhit : y.hit = true := by
    have hmem : ((s2, y) : String × MonitorBC.ItemB)
        ∈ found.filter (fun sd => sd.2.hit) := by
      rw [hfound]
      exact List.mem_cons_of_mem _ (List.mem_cons_self _ _)
    simpa using (List.mem_filter.1 hmem).2
  have hskip : ∀ (s : Store × List MonitorBC.ItemB) (a : String × MonitorBC.ItemB),
      (fun sd => sd.2.hit) a = false → MonitorBC.crawlStep sha rule true s a = s := by
    intro s a ha
    simp only at ha
    simp [MonitorBC.crawlStep, ha]
  have hrw : MonitorBC.runHost sha rule host true found db
      = List.foldl (MonitorBC.crawlStep sha rule true) (db, []) [(s1, x), (s2, y)] := by
    simp only [MonitorBC.runHost, hseed0, Bool.not_false, Bool.and_self]
    rw [foldl_skip_filter _ (fun sd => sd.2.hit) hskip found (db, []), hfound]
  have hstep1 : MonitorBC.crawlStep sha rule true (db, []) (s1, x)
      = (MonitorBC.save (MonitorBC.itemRow sha rule s1 x) db, []) := by
    simp [MonitorBC.crawlStep, hxhit, hx]
  have hbc : (MonitorBC.runHost sha rule host true found db).2 = []
      ∧ MonitorBC.known (MonitorBC.make_item_id sha x.url x.updated x.published rule)
          (MonitorBC.runHost sha rule host true found db).1 = true
      ∧ MonitorBC.known (MonitorBC.make_item_id sha y.url y.updated y.published rule)
          (MonitorBC.runHost sha rule host true found db).1 = true := by
    rw [hrw, List.foldl_cons, hstep1, List.foldl_cons, List.foldl_nil]
    by_cases hky : MonitorBC.known
        (MonitorBC.make_item_id sha y.url y.updated y.published rule)
        (MonitorBC.save (MonitorBC.itemRow sha rule s1 x) db) = true
    · rw [show MonitorBC.crawlStep sha rule true
          (MonitorBC.save (MonitorBC.itemRow sha rule s1 x) db, []) (s2, y)
          = (MonitorBC.save (MonitorBC.itemRow sha rule s1 x) db, []) from by
        simp [MonitorBC.crawlStep, hyhit, hky]]
      exact ⟨rfl, known_save_self _ _, hky⟩
    · have hky0 : MonitorBC.known
          (MonitorBC.make_item_id sha y.url y.updated y.published rule)
          (MonitorBC.save (MonitorBC.itemRow sha rule s1 x) db) = false := by
        simpa using hky
      rw [show MonitorBC.crawlStep sha rule true
          (MonitorBC.save (MonitorBC.itemRow sha rule s1 x) db, []) (s2, y)
          = (MonitorBC.save (MonitorBC.itemRow sha rule s2 y)
              (MonitorBC.save (MonitorBC.itemRow sha rule s1 x) db), []) from by
        simp [MonitorBC.crawlStep, hyhit, hky0]]
      exact ⟨rfl, known_save_mono _ (known_save_self _ _), known_save_self _ _⟩
  have hlt_xy : MonitorA.date_lt xA yA = false := by
    simp only [MonitorA.date_lt, decide_eq_false_iff_not, not_lt]
    omega
  have hlt_yx : MonitorA.date_lt yA xA = true := by
    simp only [MonitorA.date_lt, decide_eq_true_eq]
    exact hdate
  refine ⟨hbc, ?_, ?_⟩
  · intro hfilt
    refine crawlA_initial_latest sha1 name keywords sl itemsA xA yA dbA hsite0 ?_
      kx ky kxId kyId hurl hid
    rw [hfilt]
    simp [sortRev, insRev, hlt_xy]
  · intro hfilt
    refine crawlA_initial_latest sha1 name keywords sl itemsA xA yA dbA hsite0 ?_
      kx ky kxId kyId hurl hid
    rw [hfilt]
    simp [sortRev, insRev, hlt_yx]

theorem c1_seed_suppression_witness :
    MonitorBC.host_seeded ("www.kstcci.or.jp") [] = false
    ∧ (MonitorBC.runHost shaW (MonitorBC.SiteRule.mk false) ("www.kstcci.or.jp") true
        [("https://www.kstcci.or.jp/news", sampleItemB),
         ("https://www.kstcci.or.jp/news", sampleItemB2)] []).2 = []
    ∧ (MonitorA.crawl_rule shaW ("滋賀県産業支援プラザ") ["補助金", "セミナー"] false
        [sampleItemA, sampleItemA2] []).2 = [sampleItemA] := by
  refine ⟨by decide, ?_, ?_⟩
  · exact (c1_seed_suppression shaW shaW (MonitorBC.SiteRule.mk false) ("www.kstcci.or.jp")
      [("https://www.kstcci.or.jp/news", sampleItemB),
       ("https://www.kstcci.or.jp/news", sampleItemB2)]
      ("https://www.kstcci.or.jp/news") ("https://www.kstcci.or.jp/news")
      sampleItemB sampleItemB2 []
      ("滋賀県産業支援プラザ") (["補助金", "セミナー"]) [sampleItemA, sampleItemA2]
      sampleItemA sampleItemA2 [] false (by decide) (by decide) (by decide) (by decide)
      (by decide) (by decide) (by decide) (by decide) (by decide) (by decide)
      (by decide)).1.1
  · exact ((c1_seed_suppression shaW shaW (MonitorBC.SiteRule.mk false) ("www.kstcci.or.jp")
      [("https://www.kstcci.or.jp/news", sampleItemB),
       ("https://www.kstcci.or.jp/news", sampleItemB2)]
      ("https://www.kstcci.or.jp/news") ("https://www.kstcci.or.jp/news")
      sampleItemB sampleItemB2 []
      ("滋賀県産業支援プラザ") (["補助金", "セミナー"]) [sampleItemA, sampleItemA2]
      sampleItemA sampleItemA2 [] false (by decide) (by decide) (by decide) (by decide)
      (by decide) (by decide) (by decide) (by decide) (by decide) (by decide)
      (by decide)).2.1 (by decide)).1

theorem strLt_irrefl : ∀ a, strLt a a = false
  | [] => rfl
  | x :: xs => by
    rw [strLt]
    rw [if_neg (by omega), if_neg (by omega)]
    exact strLt_irrefl xs

theorem strLt_asymm : ∀ a b, strLt a b = true → strLt b a = false
  | [], [] => by simp [strLt]
  | [], _ :: _ => by simp [strLt]
  | _ :: _, [] => by simp [strLt]
  | x :: xs, y :: ys => by
    rw [strLt, strLt]
    by_cases h1 : x.toNat < y.toNat
    · rw [if_pos h1, if_neg (by omega), if_pos h1]
      intro _
      rfl
    · rw [if_neg h1]
      by_cases h2 : y.toNat < x.toNat
      · rw [if_pos h2]
        intro hf
        cases hf
      · rw [if_neg h2, if_neg h2, if_neg h1]
        exact strLt_asymm xs ys

theorem strLt_negtrans : ∀ a b c, strLt a b = false → strLt b c = false → strLt a c = false
  | [], [], [] => fun _ _ => rfl
  | [], [], _ :: _ => fun _ h2 => by simp [strLt] at h2
  | [], _ :: _, _ => fun h1 _ => by simp [strLt] at h1
  | _ :: _, _, [] => fun _ _ => by simp [strLt]
  | x :: xs, [], c :: cs => fun _ h2 => by simp [strLt] at h2
  | x :: xs, y :: ys, c :: cs => by
    rw [strLt, strLt, strLt]
    intro h1 h2
    by_cases hxy : x.toNat < y.toNat
    · rw [if_pos hxy] at h1
      cases h1
    · rw [if_neg hxy] at h1
      by_cases hyc : y.toNat < c.toNat
      · rw [if_pos hyc] at h2
        cases h2
      · rw [if_neg hyc] at h2
        by_cases hyx : y.toNat < x.toNat
        · rw [if_neg (by omega), if_pos (by omega)]
        · rw [if_neg hyx] at h1
          by_cases hcy : c.toNat < y.toNat
          · rw [if_neg (by omega), if_pos (by omega)]
          · rw [if_neg hcy] at h2
            rw [if_neg (by omega), if_neg (by omega)]
            exact strLt_negtrans xs ys cs h1 h2

theorem pairwise_insRev {lt : α → α → Bool}
    (hasym : ∀ a b, lt a b = true → lt b a = false)
    (hnt : ∀ a b c, lt a b = false → lt b c = false → lt a c = false)
    (x : α) {l : List α} (hl : l.Pairwise (fun a b => lt a b = false)) :
    (insRev lt x l).Pairwise (fun a b => lt a b = false) := by
  induction l with
  | nil => simp [insRev]
  | cons y ys ih =>
    rw [List.pairwise_cons] at hl
    rw [insRev]
    by_cases h : lt x y = true
    · rw [if_pos h, List.pairwise_cons]
      refine ⟨?_, ih hl.2⟩
      intro b hb
      rcases mem_insRev.1 hb with rfl | hb2
      · exact hasym _ _ h
      · exact hl.1 b hb2
    · have h0 : lt x y = false := by simpa using h
      rw [if_neg h, List.pairwise_cons]
      refine ⟨?_, List.pairwise_cons.2 hl⟩
      intro b hb
      rcases List.mem_cons.1 hb with rfl | hb2
      · exact h0
      · exact hnt _ _ _ h0 (hl.1 b hb2)

theorem pairwise_sortRev {lt : α → α → Bool}
    (hasym : ∀ a b, lt a b = true → lt b a = false)
    (hnt : ∀ a b c, lt a b = false → lt b c = false → lt a c = false)
    (l : List α) :
    (sortRev lt l).Pairwise (fun a b => lt a b = false) := by
  induction l with
  | nil => simp [sortRev]
  | cons x xs ih => exact pairwise_insRev hasym hnt x ih

theorem filter_key_insRev {key : α → Int} {pk : α → Bool}
    (hpk : ∀ a b, pk a = true → decide (key a < key b) = true → pk b = false)
    (x : α) (l : List α) :
    (insRev (fun a b => decide (key a < key b)) x l).filter pk
      = if pk x then x :: l.filter pk else l.filter pk := by
  induction l with
  | nil =>
    rw [insRev]
    rcases h : pk x with _ | _ <;> simp [h]
  | cons y ys ih =>
    rw [insRev]
    by_cases h : decide (key x < key y) = true
    · rw [if_pos h, List.filter_cons]
      by_cases hy : pk y = true
      · rw [if_pos hy, ih]
        by_cases hx : pk x = true
        · exact absurd hy (by simp [hpk x y hx h])
        · have hx0 : pk x = false := by simpa using hx
          rw [if_neg (by simp [hx0]), if_neg (by simp [hx0]), List.filter_cons, if_pos hy]
      · have hy0 : pk y = false := by simpa using hy
        rw [if_neg hy, ih, List.filter_cons, if_neg hy]
    · rw [if_neg h, List.filter_cons]

theorem filter_key_sortRev {key : α → Int} (k : Int) (l : List α) :
    (sortRev (fun a b => decide (key a < key b)) l).filter (fun a => decide (key a = k))
      = l.filter (fun a => decide (key a = k)) := by
  have hpk : ∀ a b, (fun a => decide (key a = k)) a = true →
      decide (key a < key b) = true → (fun a => decide (key a = k)) b = false := by
    intro a b ha hab
    simp only [decide_eq_true_eq] at ha hab
    simp only [decide_eq_false_iff_not]
    omega
  induction l with
  | nil => simp [sortRev]
  | cons x xs ih =>
    have hstep : sortRev (fun a b => decide (key a < key b)) (x :: xs)
        = insRev (fun a b => decide (key a < key b)) x
            (sortRev (fun a b => decide (key a < key b)) xs) := rfl
    rw [hstep, filter_key_insRev hpk, List.filter_cons]
    by_cases hx : decide (key x = k) = true
    · rw [if_pos hx, if_pos hx, ih]
    · have hx0 : decide (key x = k) = false := by simpa using hx
      rw [if_neg hx, if_neg (by simp [hx0]), ih]

theorem tripleLt_irrefl (a : Int × Int × Int) : MonitorBC.tripleLt a a = false := by
  simp [MonitorBC.tripleLt]

theorem tripleLt_asymm (a b : Int × Int × Int) (h : MonitorBC.tripleLt a b = true) :
    MonitorBC.tripleLt b a = false := by
  rcases a with ⟨a1, a2, a3⟩
  rcases b with ⟨b1, b2, b3⟩
  simp only [MonitorBC.tripleLt, Bool.or_eq_true, Bool.and_eq_true,
    decide_eq_true_eq] at h
  rw [Bool.eq_false_iff]
  intro h2
  simp only [MonitorBC.tripleLt, Bool.or_eq_true, Bool.and_eq_true,
    decide_eq_true_eq] at h2
  omega

theorem tripleLt_negtrans (a b c : Int × Int × Int)
    (h1 : MonitorBC.tripleLt a b = false) (h2 : MonitorBC.tripleLt b c = false) :
    MonitorBC.tripleLt a c = false := by
  rcases a with ⟨a1, a2, a3⟩
  rcases b with ⟨b1, b2, b3⟩
  rcases c with ⟨c1, c2, c3⟩
  simp only [MonitorBC.tripleLt, Bool.or_eq_false_iff, Bool.and_eq_false_iff,
    decide_eq_false_iff_not, decide_eq_true_eq] at h1 h2 ⊢
  omega

theorem tripleLt_total_eq (a b : Int × Int × Int)
    (h1 : MonitorBC.tripleLt a b = false) (h2 : MonitorBC.tripleLt b a = false) :
    a = b := by
  rcases a with ⟨a1, a2, a3⟩
  rcases b with ⟨b1, b2, b3⟩
  simp only [MonitorBC.tripleLt, Bool.or_eq_false_iff, Bool.and_eq_false_iff,
    decide_eq_false_iff_not, decide_eq_true_eq] at h1 h2
  simp only [Prod.mk.injEq]
  omega

theorem sortKeyLt_asymm (a b : String × MonitorBC.ItemB)
    (h : MonitorBC.sortKeyLt a b = true) : MonitorBC.sortKeyLt b a = false := by
  simp only [MonitorBC.sortKeyLt] at h ⊢
  rw [Bool.eq_false_iff]
  intro h2
  rw [Bool.or_eq_true] at h h2
  rcases h with h | h
  · rcases h2 with h2 | h2
    · rw [tripleLt_asymm _ _ h] at h2
      cases h2
    · rw [Bool.and_eq_true, decide_eq_true_eq] at h2
      rw [h2.1] at h
      rw [tripleLt_irrefl] at h
      cases h
  · rw [Bool.and_eq_true, decide_eq_true_eq] at h
    rcases h2 with h2 | h2
    · rw [h.1] at h2
      rw [tripleLt_irrefl] at h2
      cases h2
    · rw [Bool.and_eq_true] at h2
      rw [strLt_asymm _ _ h.2] at h2
      exact absurd h2.2 (by simp)

theorem sortKeyLt_negtrans (a b c : String × MonitorBC.ItemB)
    (h1 : MonitorBC.sortKeyLt a b = false) (h2 : MonitorBC.sortKeyLt b c = false) :
    MonitorBC.sortKeyLt a c = false := by
  simp only [MonitorBC.sortKeyLt] at h1 h2 ⊢
  rw [Bool.or_eq_false_iff] at h1 h2 ⊢
  rw [Bool.and_eq_false_iff] at h1 h2 ⊢
  refine ⟨tripleLt_negtrans _ _ _ h1.1 h2.1, ?_⟩
  by_cases heq : MonitorBC.date_key a.2.published a.2.updated
      = MonitorBC.date_key c.2.published c.2.updated
  · right
    have hba : MonitorBC.tripleLt (MonitorBC.date_key b.2.published b.2.updated)
        (MonitorBC.date_key a.2.published a.2.updated) = false := by
      rw [heq]
      exact h2.1
    have hab : MonitorBC.date_key a.2.published a.2.updated
        = MonitorBC.date_key b.2.published b.2.updated :=
      tripleLt_total_eq _ _ h1.1 hba
    have hsab : strLt a.2.url.data b.2.url.data = false := by
      rcases h1.2 with hx | hx
      · rw [decide_eq_false_iff_not] at hx
        exact absurd hab hx
      · exact hx
    have hsbc : strLt b.2.url.data c.2.url.data = false := by
      rcases h2.2 with hx | hx
      · rw [decide_eq_false_iff_not] at hx
        exact absurd (hab ▸ heq) hx
      · exact hx
    exact strLt_negtrans _ _ _ hsab hsbc
  · left
    rw [decide_eq_false_iff_not]
    exact heq

theorem isDigit_bounds {c : Char} (h : c.isDigit = true) :
    48 ≤ c.toNat ∧ c.toNat ≤ 57 := by
  simp [Char.isDigit] at h
  exact h

theorem isDigit_not_ws {c : Char} (h : c.isDigit = true) : c.isWhitespace = false := by
  rw [Bool.eq_false_iff]
  intro hw
  simp only [Char.isWhitespace, Bool.or_eq_true, decide_eq_true_eq] at hw
  rcases hw with ((rfl | rfl) | rfl) | rfl <;> exact absurd h (by decide)

theorem trimWs_digits {l : List Char} (h : l.all Char.isDigit = true) : trimWs l = l := by
  have hdrop : ∀ (m : List Char), m.all Char.isDigit = true →
      m.dropWhile Char.isWhitespace = m := by
    intro m hm
    cases m with
    | nil => rfl
    | cons c r =>
      rw [List.all_cons, Bool.and_eq_true] at hm
      rw [List.dropWhile_cons, if_neg (by simp [isDigit_not_ws hm.1])]
  rw [trimWs, hdrop l h, hdrop l.reverse (by simpa using h), List.reverse_reverse]

theorem digitsVal_aux : ∀ (l : List Char) (acc : Int), l.all Char.isDigit = true → 0 ≤ acc →
    0 ≤ l.foldl (fun a c => a * 10 + ((c.toNat : Int) - 48)) acc
  | [], acc => fun _ hacc => by simpa using hacc
  | c :: r, acc => fun h hacc => by
    rw [List.all_cons, Bool.and_eq_true] at h
    rw [List.foldl_cons]
    refine digitsVal_aux r _ h.2 ?_
    have h48 : (48 : Int) ≤ (c.toNat : Int) := by exact_mod_cast (isDigit_bounds h.1).1
    omega

theorem digitsVal_nonneg {l : List Char} (h : l.all Char.isDigit = true) :
    0 ≤ digitsVal l :=
  digitsVal_aux l 0 h le_rfl

theorem pyInt?_digits_nonneg {p : List Char} (h : p.all Char.isDigit = true) :
    pyInt? (String.mk p) = none
    ∨ ∃ n : Int, pyInt? (String.mk p) = some n ∧ 0 ≤ n := by
  cases p with
  | nil => exact Or.inl rfl
  | cons c r =>
    rw [List.all_cons, Bool.and_eq_true] at h
    have hall : (c :: r).all Char.isDigit = true := by simp [h.1, h.2]
    right
    refine ⟨digitsVal (c :: r), ?_, digitsVal_nonneg hall⟩
    simp only [pyInt?]
    have hd : trimWs (String.mk (c :: r)).data = c :: r := trimWs_digits hall
    rw [hd]
    have hc1 : ¬ c = '+' := by
      intro he
      subst he
      exact absurd h.1 (by decide)
    have hc2 : ¬ c = '-' := by
      intro he
      subst he
      exact absurd h.1 (by decide)
    simp only [List.head?_cons, List.tail_cons, Option.some.injEq]
    rw [if_neg hc1, if_neg hc2, if_pos (by simp [hall]), one_mul]

theorem splitOnDot_parts_digit : ∀ (l : List Char),
    l.all (fun c => c.isDigit || decide (c = '.')) = true →
    ∀ p ∈ splitOnDot l, p.all Char.isDigit = true := by
  intro l
  induction l with
  | nil =>
    intro _ p hp
    simp only [splitOnDot, List.mem_singleton] at hp
    subst hp
    rfl
  | cons c r ih =>
    intro h p hp
    rw [List.all_cons, Bool.and_eq_true] at h
    rw [splitOnDot] at hp
    cases hsp : splitOnDot r with
    | nil =>
      simp only [hsp] at hp
      simp at hp
      subst hp
      rfl
    | cons q qs =>
      simp only [hsp] at hp
      by_cases hc : c = '.'
      · rw [if_pos hc] at hp
        rcases List.mem_cons.1 hp with rfl | hp2
        · rfl
        · exact ih h.2 p (by rw [hsp]; exact hp2)
      · rw [if_neg hc] at hp
        have hcd : c.isDigit = true := by
          have h1 := h.1
          rw [Bool.or_eq_true] at h1
          rcases h1 with hx | hx
          · exact hx
          · rw [decide_eq_true_eq] at hx
            exact absurd hx hc
        rcases List.mem_cons.1 hp with rfl | hp2
        · rw [List.all_cons, Bool.and_eq_true]
          refine ⟨hcd, ih h.2 q ?_⟩
          rw [hsp]
          exact List.mem_cons_self q qs
        · exact ih h.2 p (by rw [hsp]; exact List.mem_cons_of_mem q hp2)

/-- C8 counterexample: in `crawl_rule`'s "most recent" selection there is
no URL tie-break — the sort key is `date_key` alone and Python's sort is
stable, so two candidates with equal date keys keep their discovery
order, and the notified head is the first-discovered one even though its
URL sorts before the other's (URL-descending order would pick the other
item). -/
theorem c8_url_tiebreak_counterexample :
    MonitorA.date_key sampleTieA = MonitorA.date_key sampleTieB
    ∧ strLt sampleTieA.url.data sampleTieB.url.data = true
    ∧ sortRev MonitorA.date_lt [sampleTieA, sampleTieB] = [sampleTieA, sampleTieB]
    ∧ (MonitorA.crawl_rule shaW ("守山商工会議所") ["補助金"] false
        [sampleTieA, sampleTieB] []).2 = [sampleTieA] := by
  refine ⟨by decide, by decide, by decide, by decide⟩

/-- C8 amended: both "most recent" selections order by a numeric date
key descending, and items whose date fails to parse receive the minimal
key, so they sort after every item with a strictly larger parsed key —
but the tie behaviour differs per revision: `pick_latest_matching`
(v1.6) sorts by the pair `(y/m/d triple, url)`, so date ties break by
URL descending, while `crawl_rule` (`monitor_shigaplaza.py`) sorts by
the digits-concatenation integer alone with Python's stable sort, so
date ties keep discovery order and the URL is never consulted.  The
parts: (1) `crawl_rule`'s sort is descending in `date_key`; (2) it is
stable (equal-key items keep their relative order); (3) the unparsable
key `-1` is minimal, reached exactly when the date has no digits;
(4) `pick_latest_matching`'s sort is descending in its full key;
(5) on date ties that comparator is exactly the URL comparison; (6) for
date strings made of digits and dots — all `find_date` can produce —
the parsed key is at least the failure key `(0,0,0)`; (7) the pick
returned is maximal among the candidates. -/
theorem c8_recency_ordering :
    (∀ l : List MonitorA.ItemA,
        (sortRev MonitorA.date_lt l).Pairwise (fun a b => MonitorA.date_lt a b = false))
    ∧ (∀ (l : List MonitorA.ItemA) (k : Int),
        (sortRev MonitorA.date_lt l).filter (fun d => decide (MonitorA.date_key d = k))
          = l.filter (fun d => decide (MonitorA.date_key d = k)))
    ∧ (∀ d : MonitorA.ItemA, -1 ≤ MonitorA.date_key d
        ∧ (MonitorA.date_key d = -1 ↔ (d.published.getD "").data.filter Char.isDigit = []))
    ∧ (∀ l : List (String × MonitorBC.ItemB),
        (sortRev MonitorBC.sortKeyLt l).Pairwise (fun a b => MonitorBC.sortKeyLt a b = false))
    ∧ (∀ a b : String × MonitorBC.ItemB,
        MonitorBC.date_key a.2.published a.2.updated
          = MonitorBC.date_key b.2.published b.2.updated →
        MonitorBC.sortKeyLt a b = strLt a.2.url.data b.2.url.data)
    ∧ (∀ p u : String,
        p.data.all (fun c => c.isDigit || decide (c = '.')) = true →
        u.data.all (fun c => c.isDigit || decide (c = '.')) = true →
        MonitorBC.tripleLt (MonitorBC.date_key p u) (0, 0, 0) = false)
    ∧ (∀ (cands : List (String × MonitorBC.ItemB)) (top : String × MonitorBC.ItemB),
        MonitorBC.pick_latest_matching cands = some top →
        ∀ c ∈ cands, MonitorBC.sortKeyLt top c = false) := by
  have hAasym : ∀ a b, MonitorA.date_lt a b = true → MonitorA.date_lt b a = false := by
    intro a b h
    simp only [MonitorA.date_lt, decide_eq_true_eq] at h
    simp only [MonitorA.date_lt, decide_eq_false_iff_not]
    omega
  have hAnt : ∀ a b c, MonitorA.date_lt a b = false → MonitorA.date_lt b c = false →
      MonitorA.date_lt a c = false := by
    intro a b c h1 h2
    simp only [MonitorA.date_lt, decide_eq_false_iff_not] at h1 h2 ⊢
    omega
  have hBirr : ∀ a, MonitorBC.sortKeyLt a a = false := by
    intro a
    simp [MonitorBC.sortKeyLt, tripleLt_irrefl, strLt_irrefl]
  refine ⟨?_, ?_, ?_, ?_, ?_, ?_, ?_⟩
  · intro l
    exact pairwise_sortRev hAasym hAnt l
  · intro l k
    have hdl : MonitorA.date_lt
        = fun a b => decide (MonitorA.date_key a < MonitorA.date_key b) := rfl
    rw [hdl]
    exact filter_key_sortRev k l
  · intro d
    rw [MonitorA.date_key]
    by_cases h : ((d.published.getD "").data.filter Char.isDigit).isEmpty = true
    · rw [if_pos h]
      rw [List.isEmpty_iff] at h
      simp [h]
    · rw [if_neg h]
      have hnn : 0 ≤ digitsVal ((d.published.getD "").data.filter Char.isDigit) := by
        refine digitsVal_nonneg ?_
        rw [List.all_eq_true]
        intro c hc
        exact (List.mem_filter.1 hc).2
      have hne : ¬ ((d.published.getD "").data.filter Char.isDigit) = [] := by
        rw [← List.isEmpty_iff]
        simpa using h
      constructor
      · omega
      · constructor
        · intro hx
          omega
        · intro hx
          exact absurd hx hne
  · intro l
    exact pairwise_sortRev sortKeyLt_asymm sortKeyLt_negtrans l
  · intro a b heq
    simp only [MonitorBC.sortKeyLt, heq, tripleLt_irrefl, decide_eq_true_eq]
    simp
  · intro p u hp hu
    rw [MonitorBC.date_key]
    have hs0 : (if u = "" then p else u).data.all
        (fun c => c.isDigit || decide (c = '.')) = true := by
      by_cases hc : u = ""
      · rw [if_pos hc]
        exact hp
      · rw [if_neg hc]
        exact hu
    have hmap : ((if u = "" then p else u).data.map
        (fun c => if c = '/' then '.' else c)).all
        (fun c => c.isDigit || decide (c = '.')) = true := by
      rw [List.all_map, List.all_eq_true]
      rw [List.all_eq_true] at hs0
      intro c hc
      by_cases hcs : c = '/'
      · simp [hcs]
      · simp only [Function.comp_apply, if_neg hcs]
        exact hs0 c hc
    split
    · rename_i a b c hta
      split
      · rename_i y m d hya hmb hdc
        have hmem : ∀ q ∈ [a, b, c], q.all Char.isDigit = true := by
          intro q hq
          refine splitOnDot_parts_digit _ hmap q ?_
          exact List.take_subset 3 _ (hta ▸ hq)
        have hy0 : 0 ≤ y := by
          rcases pyInt?_digits_nonneg (hmem a (by simp)) with hn | ⟨n, hn, hnn⟩
          · rw [hn] at hya
            cases hya
          · rw [hn] at hya
            injection hya with hya
            omega
        have hm0 : 0 ≤ m := by
          rcases pyInt?_digits_nonneg (hmem b (by simp)) with hn | ⟨n, hn, hnn⟩
          · rw [hn] at hmb
            cases hmb
          · rw [hn] at hmb
            injection hmb with hmb
            omega
        have hd0 : 0 ≤ d := by
          rcases pyInt?_digits_nonneg (hmem c (by simp)) with hn | ⟨n, hn, hnn⟩
          · rw [hn] at hdc
            cases hdc
          · rw [hn] at hdc
            injection hdc with hdc
            omega
        simp only [MonitorBC.tripleLt, Bool.or_eq_false_iff, Bool.and_eq_false_iff,
          decide_eq_false_iff_not, decide_eq_true_eq]
        omega
      · exact tripleLt_irrefl _
    · exact tripleLt_irrefl _
  · intro cands top h
    rw [MonitorBC.pick_latest_matching] at h
    cases hs : sortRev MonitorBC.sortKeyLt cands with
    | nil =>
      rw [hs] at h
      cases h
    | cons t rest =>
      rw [hs] at h
      injection h with h
      subst h
      intro c hc
      have hc2 : c ∈ sortRev MonitorBC.sortKeyLt cands := mem_sortRev.2 hc
      rw [hs] at hc2
      rcases List.mem_cons.1 hc2 with rfl | hc3
      · exact hBirr c
      · have hp := pairwise_sortRev sortKeyLt_asymm sortKeyLt_negtrans cands
        rw [hs] at hp
        exact (List.pairwise_cons.1 hp).1 c hc3

theorem c8_recency_ordering_witness :
    MonitorBC.sortKeyLt ("s", sampleItemB) ("s", sampleItemB)
      = strLt sampleItemB.url.data sampleItemB.url.data
    ∧ MonitorBC.tripleLt (MonitorBC.date_key ("2024.05.01") ("")) (0, 0, 0) = false
    ∧ MonitorBC.pick_latest_matching [("s", sampleItemB)] = some ("s", sampleItemB)
    ∧ MonitorBC.sortKeyLt ("s", sampleItemB) ("s", sampleItemB) = false :=
  ⟨c8_recency_ordering.2.2.2.2.1 ("s", sampleItemB) ("s", sampleItemB) rfl,
   c8_recency_ordering.2.2.2.2.2.1 ("2024.05.01") ("") (by decide) (by decide),
   by decide,
   c8_recency_ordering.2.2.2.2.2.2 [("s", sampleItemB)] ("s", sampleItemB) (by decide)
     ("s", sampleItemB) (List.mem_cons_self _ _)⟩
